import Mathlib

/-!
# Verification of the CSV Sample Splitter transformation core

A shallow embedding of `src/app.py` (pandas-based CSV filter/split app).
Cells of the loaded table are either a string (the app loads with
`dtype=str`) or the missing-value marker (pandas `NaN`).  `astype(str)`
turns the missing marker into the literal string `"nan"`.
-/

instance {ε α : Type} [DecidableEq ε] [DecidableEq α] : DecidableEq (Except ε α) :=
  fun a b =>
    match a, b with
    | .ok x, .ok y =>
      if h : x = y then isTrue (by rw [h]) else isFalse (fun hc => h (by cases hc; rfl))
    | .error x, .error y =>
      if h : x = y then isTrue (by rw [h]) else isFalse (fun hc => h (by cases hc; rfl))
    | .ok _, .error _ => isFalse (fun hc => by cases hc)
    | .error _, .ok _ => isFalse (fun hc => by cases hc)

namespace SampleSplitter

/-- A cell of the loaded table: a string value or the missing marker (NaN). -/
inductive Cell where
  | missing : Cell
  | val : String → Cell
deriving DecidableEq, Repr

/-- A row: the cells in column order. -/
abbrev Row := List Cell

/-- A table: ordered headers plus ordered rows. -/
structure Table where
  headers : List String
  rows : List Row
deriving DecidableEq, Repr

/-- Python whitespace characters stripped by `str.strip()` (ASCII part). -/
def pyWS (c : Char) : Bool :=
  c = ' ' || c = '\t' || c = '\n' || c = '\r' || c = '\x0b' || c = '\x0c'

/-- Strip characters satisfying `p` from both ends of a character list. -/
def stripEnds (p : Char → Bool) (l : List Char) : List Char :=
  ((l.dropWhile p).reverse.dropWhile p).reverse

/-- Python `str.strip()`: trim whitespace from both ends. -/
def pyStrip (s : String) : String :=
  ⟨stripEnds pyWS s.data⟩

/-- Python `str(cell)` after `astype(str)`: NaN stringifies to `"nan"`. -/
def pyStr : Cell → String
  | .missing => "nan"
  | .val s => s

/-- Pandas `notna`: true exactly on present (non-NaN) cells. -/
def notna : Cell → Bool
  | .missing => false
  | .val _ => true

def SAMPLE_TYPE_COL : String := "Sample Type"
def CONCENTRATION_COL : String := "Concentration"
def SAMPLE_NAME_COL : String := "Sample Name"

/-- The required columns, in the order the code checks them. -/
def REQUIRED_COLS : List String :=
  [SAMPLE_TYPE_COL, CONCENTRATION_COL, SAMPLE_NAME_COL]

/-- The fixed metadata columns removed in step 3 (`DROP_COLUMNS`). -/
def DROP_COLUMNS : List String :=
  ["Data File Name", "Misc. Info or Comment", "Batch Name", "Operator",
   "Instrument Name", "Units", "Sample Type", "Element Full Name"]

/-- `df[c]` for one row: the cell under the first header equal to `c`
(missing when the column is absent or the row is short). -/
def getCell (headers : List String) (row : Row) (c : String) : Cell :=
  match headers.findIdx? (fun h => decide (h = c)) with
  | some i => (row[i]?).getD .missing
  | none => .missing

/-- `missing = [c for c in REQUIRED if c not in df.columns]`. -/
def missingCols (headers : List String) : List String :=
  REQUIRED_COLS.filter (fun c => !decide (c ∈ headers))

/-- Step 1 mask: `df[SAMPLE_TYPE_COL].astype(str).str.strip().eq("Sample")`. -/
def maskSampleType (headers : List String) (row : Row) : Bool :=
  decide (pyStrip (pyStr (getCell headers row SAMPLE_TYPE_COL)) = "Sample")

/-- Step 2 mask: `conc.notna() & conc.astype(str).str.strip().ne("")`. -/
def maskConc (headers : List String) (row : Row) : Bool :=
  notna (getCell headers row CONCENTRATION_COL) &&
    !decide (pyStrip (pyStr (getCell headers row CONCENTRATION_COL)) = "")

/-- Step 3 on headers: `df.drop(columns=[c for c in DROP_COLUMNS if c in df])`. -/
def keptHeaders (headers : List String) : List String :=
  headers.filter (fun h => !decide (h ∈ DROP_COLUMNS))

/-- Step 3 on one row: keep the cells of the retained columns, in order. -/
def dropRow (headers : List String) (row : Row) : Row :=
  ((headers.zip row).filter (fun p => !decide (p.1 ∈ DROP_COLUMNS))).map Prod.snd

/-- The `transform` function of `src/app.py` (lines 55-86): required-column
check, sample-type filter, concentration filter, metadata-column drop.
Errors carry the list of missing required columns. -/
def transform (t : Table) : Except (List String) Table :=
  if missingCols t.headers = [] then
    .ok { headers := keptHeaders t.headers,
          rows := ((t.rows.filter (maskSampleType t.headers)).filter
                      (maskConc t.headers)).map (dropRow t.headers) }
  else
    .error (missingCols t.headers)

/-! ## slugify (`src/app.py` lines 89-95) -/

/-- Characters of the regex class `[0-9A-Za-z_\-]`. -/
def goodChar (c : Char) : Bool :=
  c.isDigit || c.isUpper || c.isLower || c = '_' || c = '-'

/-- `value.replace(" ", "_")`. -/
def replaceSpaces (s : String) : String :=
  ⟨s.data.map (fun c => if c = ' ' then '_' else c)⟩

/-- One pass of `re.sub(r"[^0-9A-Za-z_\-]+", "_", value)`: the flag records
whether the previous character was part of a bad run. -/
def subRunsAux : Bool → List Char → List Char
  | _, [] => []
  | prevBad, c :: cs =>
    if goodChar c then c :: subRunsAux false cs
    else if prevBad then subRunsAux true cs
    else '_' :: subRunsAux true cs

/-- `re.sub(r"[^0-9A-Za-z_\-]+", "_", value)`: each maximal run of characters
outside the class becomes a single underscore. -/
def subRuns (s : String) : String :=
  ⟨subRunsAux false s.data⟩

/-- One pass of `re.sub(r"_+", "_", value)`. -/
def collapseUAux : Bool → List Char → List Char
  | _, [] => []
  | prevU, c :: cs =>
    if c = '_' then
      if prevU then collapseUAux true cs else '_' :: collapseUAux true cs
    else c :: collapseUAux false cs

/-- `re.sub(r"_+", "_", value)`: collapse runs of underscores to one. -/
def collapseU (s : String) : String :=
  ⟨collapseUAux false s.data⟩

/-- `value.strip("_")`. -/
def stripUnderscores (s : String) : String :=
  ⟨stripEnds (fun c => decide (c = '_')) s.data⟩

/-- `x or "sample"`: the fallback for an empty slug. -/
def orSample (s : String) : String :=
  if s = "" then "sample" else s

/-- The `slugify` function of `src/app.py`. -/
def slugify (s : String) : String :=
  orSample (stripUnderscores (collapseU (subRuns (replaceSpaces (pyStrip s)))))

/-! ## Grouping (`src/app.py` line 133) -/

/-- The raw (untrimmed) sample-name key of a row. -/
def rowKey (headers : List String) (row : Row) : Cell :=
  getCell headers row SAMPLE_NAME_COL

/-- First-appearance deduplication (`seen` accumulates emitted keys). -/
def firstDedupAux (seen : List Cell) : List Cell → List Cell
  | [] => []
  | c :: cs =>
    if c ∈ seen then firstDedupAux seen cs
    else c :: firstDedupAux (c :: seen) cs

/-- The distinct keys in order of first appearance. -/
def firstDedup (l : List Cell) : List Cell :=
  firstDedupAux [] l

/-- Codepoint-lexicographic `≤` on character lists (Python string order). -/
def charListLe : List Char → List Char → Bool
  | [], _ => true
  | _ :: _, [] => false
  | a :: as, b :: bs => if a = b then charListLe as bs else decide (a < b)

/-- The order pandas sorts group keys in: string keys by codepoint-lexicographic
order, the missing (NaN) key last. -/
def cellLe : Cell → Cell → Prop
  | _, .missing => True
  | .missing, .val _ => False
  | .val a, .val b => charListLe a.data b.data = true

instance : DecidableRel cellLe := fun a b =>
  match a, b with
  | .missing, .missing => isTrue trivial
  | .val _, .missing => isTrue trivial
  | .missing, .val _ => isFalse (fun h => h)
  | .val s, .val t => inferInstanceAs (Decidable (charListLe s.data t.data = true))

theorem charListLe_total : ∀ as bs, charListLe as bs = true ∨ charListLe bs as = true := by
  intro as
  induction as with
  | nil => intro bs; left; rfl
  | cons a as ih =>
    intro bs
    cases bs with
    | nil => right; rfl
    | cons b bs =>
      by_cases hab : a = b
      · subst hab
        simpa [charListLe] using ih bs
      · rcases lt_trichotomy a b with h | h | h
        · left; simp [charListLe, hab, h]
        · exact absurd h hab
        · right
          simp [charListLe, Ne.symm hab, h]

theorem charListLe_trans : ∀ as bs cs, charListLe as bs = true →
    charListLe bs cs = true → charListLe as cs = true := by
  intro as
  induction as with
  | nil => intro bs cs _ _; rfl
  | cons a as ih =>
    intro bs cs hab hbc
    cases bs with
    | nil => simp [charListLe] at hab
    | cons b bs =>
      cases cs with
      | nil => simp [charListLe] at hbc
      | cons c cs =>
        by_cases h1 : a = b <;> by_cases h2 : b = c
        · subst h1; subst h2
          simp only [charListLe, if_pos rfl] at hab hbc ⊢
          exact ih bs cs hab hbc
        · subst h1
          simp only [charListLe, if_neg h2] at hbc ⊢
          exact hbc
        · subst h2
          simp only [charListLe, if_neg h1] at hab ⊢
          exact hab
        · simp only [charListLe, if_neg h1, decide_eq_true_eq] at hab
          simp only [charListLe, if_neg h2, decide_eq_true_eq] at hbc
          have hac : a < c := lt_trans hab hbc
          simp [charListLe, ne_of_lt hac, hac]

instance : IsTotal Cell cellLe where
  total a b := by
    cases a <;> cases b <;> simp only [cellLe]
    · exact Or.inl trivial
    · exact Or.inr trivial
    · exact Or.inl trivial
    · exact charListLe_total _ _

instance : IsTrans Cell cellLe where
  trans a b c hab hbc := by
    cases a <;> cases b <;> cases c <;> simp only [cellLe] at hab hbc ⊢
    exact charListLe_trans _ _ _ hab hbc

/-- Sorting of group keys, as pandas `groupby(..., sort=True)` performs it. -/
def sortKeys (ks : List Cell) : List Cell :=
  ks.insertionSort cellLe

/-- `list(out_df.groupby(SAMPLE_NAME_COL, dropna=False))`: one `(key, sub-table)`
pair per distinct sample-name value, keys sorted ascending (NaN last), each
sub-table holding the rows with that key in their original order. -/
def grouped (t : Table) : List (Cell × Table) :=
  (sortKeys (firstDedup (t.rows.map (rowKey t.headers)))).map
    (fun k => (k, { headers := t.headers,
                    rows := t.rows.filter (fun r => decide (rowKey t.headers r = k)) }))

/-! ## The main processing flow (`src/app.py` lines 101-161) -/

/-- Outcome of one invocation of the main processing flow.  Artifacts (the
combined table and the per-sample groups) exist only in the success case. -/
inductive Outcome where
  | sizeLimitExceeded : Outcome
  | parseError : Outcome
  | missingRequiredColumns : List String → Outcome
  | emptyResultSet : Outcome
  | success : Table → List (Cell × Table) → Outcome
deriving DecidableEq, Repr

/-- Result of the CSV parse step (pandas `read_csv`), abstracted. -/
inductive ParseOutcome where
  | failed : ParseOutcome
  | parsed : Table → ParseOutcome
deriving DecidableEq, Repr

/-- Bytes per megabyte in the size check (`1024 * 1024`). -/
def BYTES_PER_MB : Nat := 1024 * 1024

/-- The pipeline from a parsed table on: transform, empty check, grouping. -/
def afterParse (t : Table) : Outcome :=
  match transform t with
  | .error missing => .missingRequiredColumns missing
  | .ok out =>
    if out.rows = [] then .emptyResultSet
    else .success out (grouped out)

/-- The main flow: size guard first (`size_mb > max_mb` aborts before the
parse), then parse, then `afterParse`. -/
def process (rawLen maxMB : Nat) (p : ParseOutcome) : Outcome :=
  if maxMB * BYTES_PER_MB < rawLen then .sizeLimitExceeded
  else
    match p with
    | .failed => .parseError
    | .parsed t => afterParse t

/-! ## Concrete tables used to instantiate the theorems -/

/-- A small concrete input table: two surviving rows (sample names `"b"` then
`"a"`), one row dropped by each filter, one row with a missing sample type. -/
def exInput : Table :=
  { headers := ["Sample Type", "Concentration", "Sample Name"],
    rows := [[Cell.val "Sample", Cell.val "1.2", Cell.val "b"],
             [Cell.val "Blank", Cell.val "3", Cell.val "a"],
             [Cell.val "Sample", Cell.missing, Cell.val "a"],
             [Cell.val " Sample ", Cell.val "2", Cell.val "a"],
             [Cell.missing, Cell.val "4", Cell.val "c"]] }

/-- `transform exInput` (computed): the two surviving rows, metadata dropped. -/
def exOutput : Table :=
  { headers := ["Concentration", "Sample Name"],
    rows := [[Cell.val "1.2", Cell.val "b"],
             [Cell.val "2", Cell.val "a"]] }

/-- An input table whose only row is removed by the sample-type filter. -/
def exEmptyInput : Table :=
  { headers := ["Sample Type", "Concentration", "Sample Name"],
    rows := [[Cell.val "Blank", Cell.val "1", Cell.val "a"]] }

/-- `transform exEmptyInput` (computed): no rows survive. -/
def exEmptyOutput : Table :=
  { headers := ["Concentration", "Sample Name"], rows := [] }

/-- An input table missing the sample-type and concentration columns. -/
def exMissingInput : Table :=
  { headers := ["Sample Name", "Foo"], rows := [[Cell.val "x", Cell.val "y"]] }

/-! ## Supporting lemmas -/

theorem notna_iff (c : Cell) : notna c = true ↔ c ≠ Cell.missing := by
  cases c <;> simp [notna]

theorem transform_eq_ok {t : Table} {out : Table} (h : transform t = .ok out) :
    missingCols t.headers = [] ∧
      out = { headers := keptHeaders t.headers,
              rows := ((t.rows.filter (maskSampleType t.headers)).filter
                          (maskConc t.headers)).map (dropRow t.headers) } := by
  by_cases hm : missingCols t.headers = []
  · refine ⟨hm, ?_⟩
    rw [transform, if_pos hm] at h
    exact (Except.ok.inj h).symm
  · rw [transform, if_neg hm] at h
    exact absurd h (by simp)

theorem mem_firstDedupAux (seen : List Cell) (l : List Cell) (x : Cell) :
    x ∈ firstDedupAux seen l ↔ x ∈ l ∧ x ∉ seen := by
  induction l generalizing seen with
  | nil => simp [firstDedupAux]
  | cons c cs ih =>
    by_cases hc : c ∈ seen
    · rw [firstDedupAux, if_pos hc, ih]
      constructor
      · rintro ⟨h1, h2⟩
        exact ⟨List.mem_cons_of_mem _ h1, h2⟩
      · rintro ⟨h1, h2⟩
        rcases List.mem_cons.mp h1 with h1 | h1
        · exact absurd (h1 ▸ hc) h2
        · exact ⟨h1, h2⟩
    · rw [firstDedupAux, if_neg hc]
      constructor
      · intro hx
        rcases List.mem_cons.mp hx with hx | hx
        · exact ⟨hx ▸ List.mem_cons_self _ _, hx ▸ hc⟩
        · rcases (ih (c :: seen)).mp hx with ⟨h1, h2⟩
          refine ⟨List.mem_cons_of_mem _ h1, fun hs => h2 (List.mem_cons_of_mem _ hs)⟩
      · rintro ⟨h1, h2⟩
        by_cases hxc : x = c
        · exact hxc ▸ List.mem_cons_self _ _
        · rcases List.mem_cons.mp h1 with h1 | h1
          · exact absurd h1 hxc
          · refine List.mem_cons_of_mem _ ((ih (c :: seen)).mpr ⟨h1, fun hs => ?_⟩)
            rcases List.mem_cons.mp hs with hs | hs
            · exact hxc hs
            · exact h2 hs

theorem nodup_firstDedupAux (seen : List Cell) (l : List Cell) :
    (firstDedupAux seen l).Nodup := by
  induction l generalizing seen with
  | nil => exact List.nodup_nil
  | cons c cs ih =>
    by_cases hc : c ∈ seen
    · rw [firstDedupAux, if_pos hc]
      exact ih seen
    · rw [firstDedupAux, if_neg hc]
      refine List.nodup_cons.mpr ⟨fun hmem => ?_, ih (c :: seen)⟩
      exact ((mem_firstDedupAux _ _ _).mp hmem).2 (List.mem_cons_self _ _)

theorem mem_firstDedup (l : List Cell) (x : Cell) : x ∈ firstDedup l ↔ x ∈ l := by
  rw [firstDedup, mem_firstDedupAux]
  simp

theorem nodup_firstDedup (l : List Cell) : (firstDedup l).Nodup :=
  nodup_firstDedupAux [] l

theorem sortKeys_perm (ks : List Cell) : List.Perm (sortKeys ks) ks :=
  List.perm_insertionSort cellLe ks

theorem sortKeys_sorted (ks : List Cell) : List.Sorted cellLe (sortKeys ks) :=
  List.sorted_insertionSort cellLe ks

theorem mem_sortKeys (ks : List Cell) (x : Cell) : x ∈ sortKeys ks ↔ x ∈ ks :=
  (sortKeys_perm ks).mem_iff

theorem nodup_sortKeys (ks : List Cell) (h : ks.Nodup) : (sortKeys ks).Nodup :=
  ((sortKeys_perm ks).nodup_iff).mpr h

theorem filter_or_perm {α : Type} (p q : α → Bool) (l : List α)
    (hdisj : ∀ a, ¬(p a = true ∧ q a = true)) :
    List.Perm (l.filter p ++ l.filter q) (l.filter (fun a => p a || q a)) := by
  induction l with
  | nil => simp
  | cons a l ih =>
    by_cases hp : p a = true
    · have hq : q a = false := by
        cases hq : q a
        · rfl
        · exact absurd ⟨hp, hq⟩ (hdisj a)
      simp only [List.filter_cons, hp, hq, Bool.true_or, if_true, Bool.false_eq_true, if_false]
      exact (ih.cons a)
    · have hp' : p a = false := Bool.eq_false_iff.mpr hp
      by_cases hq : q a = true
      · simp only [List.filter_cons, hp', hq, Bool.false_or, Bool.false_eq_true, if_false, if_true]
        exact (List.perm_middle).trans (ih.cons a)
      · have hq' : q a = false := Bool.eq_false_iff.mpr hq
        simp only [List.filter_cons, hp', hq', Bool.false_or, Bool.false_eq_true, if_false]
        exact ih

theorem flatten_groups_perm {α κ : Type} [DecidableEq κ] (key : α → κ)
    (ks : List κ) (l : List α) (hnd : ks.Nodup) (hcov : ∀ a ∈ l, key a ∈ ks) :
    List.Perm ((ks.map (fun k => l.filter (fun a => decide (key a = k)))).flatten) l := by
  have main : ∀ ks : List κ, ks.Nodup →
      List.Perm ((ks.map (fun k => l.filter (fun a => decide (key a = k)))).flatten)
        (l.filter (fun a => decide (key a ∈ ks))) := by
    intro ks
    induction ks with
    | nil => intro _; simp
    | cons k ks ih =>
      intro hks
      have hknotin : k ∉ ks := (List.nodup_cons.mp hks).1
      have ih' := ih (List.nodup_cons.mp hks).2
      have hcongr : l.filter (fun a => decide (key a = k) || decide (key a ∈ ks)) =
          l.filter (fun a => decide (key a ∈ k :: ks)) := by
        refine List.filter_congr (fun a _ => ?_)
        simp [List.mem_cons]
      rw [List.map_cons, List.flatten_cons, ← hcongr]
      refine ((List.Perm.refl _).append ih').trans ?_
      refine filter_or_perm _ _ _ ?_
      rintro a ⟨h1, h2⟩
      rw [decide_eq_true_eq] at h1 h2
      exact hknotin (h1 ▸ h2)
  have := main ks hnd
  rwa [List.filter_eq_self.mpr (fun a ha => decide_eq_true (hcov a ha))] at this

theorem grouped_keys_eq (t : Table) :
    (grouped t).map Prod.fst = sortKeys (firstDedup (t.rows.map (rowKey t.headers))) := by
  rw [grouped, List.map_map]
  exact List.map_id _

theorem grouped_rows_perm (t : Table) :
    List.Perm ((grouped t).map (fun g => g.2.rows)).flatten t.rows := by
  rw [grouped, List.map_map]
  refine flatten_groups_perm (rowKey t.headers) _ _ ?_ ?_
  · exact nodup_sortKeys _ (nodup_firstDedup _)
  · intro r hr
    rw [mem_sortKeys, mem_firstDedup]
    exact List.mem_map_of_mem _ hr

theorem zip_dropRow (hs : List String) (r : Row) (hlen : r.length = hs.length) :
    (keptHeaders hs).zip (dropRow hs r) =
      (hs.zip r).filter (fun p => !decide (p.1 ∈ DROP_COLUMNS)) := by
  induction hs generalizing r with
  | nil =>
    cases r with
    | nil => rfl
    | cons c r => simp at hlen
  | cons h hs ih =>
    cases r with
    | nil => simp at hlen
    | cons c r =>
      have hlen' : r.length = hs.length := by simpa using hlen
      by_cases hd : h ∈ DROP_COLUMNS
      · simpa [keptHeaders, dropRow, hd] using ih r hlen'
      · simpa [keptHeaders, dropRow, hd] using ih r hlen'

/-! ## Claim theorems -/

/-- C2: for a table with the required columns, a row survives `transform`
exactly when its trimmed Sample Type string equals the literal `"Sample"`
(case-sensitive) and its Concentration cell is present with a non-empty
trimmed string form; the two sequential filters yield the same rows as the
single conjunction filter. -/
theorem c2_filter_characterization (t out : Table) (h : transform t = .ok out) :
    out.rows = ((t.rows.filter (maskSampleType t.headers)).filter
        (maskConc t.headers)).map (dropRow t.headers)
    ∧ (t.rows.filter (maskSampleType t.headers)).filter (maskConc t.headers)
        = t.rows.filter (fun r => maskSampleType t.headers r && maskConc t.headers r)
    ∧ (∀ r : Row, (maskSampleType t.headers r && maskConc t.headers r) = true ↔
        (pyStrip (pyStr (getCell t.headers r SAMPLE_TYPE_COL)) = "Sample"
          ∧ getCell t.headers r CONCENTRATION_COL ≠ Cell.missing
          ∧ pyStrip (pyStr (getCell t.headers r CONCENTRATION_COL)) ≠ ""))
    ∧ (∀ r2 : Row, r2 ∈ out.rows ↔ ∃ r, r ∈ t.rows
          ∧ maskSampleType t.headers r = true ∧ maskConc t.headers r = true
          ∧ r2 = dropRow t.headers r) := by
  obtain ⟨hm, hout⟩ := transform_eq_ok h
  subst hout
  refine ⟨rfl, ?_, ?_, ?_⟩
  · rw [List.filter_filter]
    exact List.filter_congr (fun r _ => Bool.and_comm _ _)
  · intro r
    cases hc : getCell t.headers r CONCENTRATION_COL with
    | missing => simp [maskSampleType, maskConc, hc, notna]
    | val s => simp [maskSampleType, maskConc, hc, notna]
  · intro r2
    simp only [List.mem_map, List.mem_filter]
    constructor
    · rintro ⟨r, ⟨⟨hr, h1⟩, h2⟩, h3⟩
      exact ⟨r, hr, h1, h2, h3.symm⟩
    · rintro ⟨r, hr, h1, h2, h3⟩
      exact ⟨r, ⟨⟨hr, h1⟩, h2⟩, h3.symm⟩

/-- C2 witness: the characterization instantiated on a concrete table. -/
theorem c2_filter_characterization_witness :
    exOutput.rows = ((exInput.rows.filter (maskSampleType exInput.headers)).filter
        (maskConc exInput.headers)).map (dropRow exInput.headers) :=
  (c2_filter_characterization exInput exOutput (by decide)).1

/-- C3: the groups of the split step partition the filtered rows exactly:
the concatenation of the group sub-tables is a permutation of the filtered
rows, every row of a group carries that group's key, and distinct groups are
disjoint. -/
theorem c3_groups_partition (t out : Table) (h : transform t = .ok out) :
    List.Perm ((grouped out).map (fun g => g.2.rows)).flatten out.rows
    ∧ (∀ g ∈ grouped out, ∀ r ∈ g.2.rows, rowKey out.headers r = g.1)
    ∧ List.Pairwise (fun g1 g2 => ∀ r, r ∈ g1.2.rows → r ∉ g2.2.rows) (grouped out) := by
  refine ⟨grouped_rows_perm out, ?_, ?_⟩
  · intro g hg r hr
    rw [grouped] at hg
    obtain ⟨k, _, rfl⟩ := List.mem_map.mp hg
    have := (List.mem_filter.mp hr).2
    exact of_decide_eq_true this
  · rw [grouped]
    rw [List.pairwise_map]
    have hnd : (sortKeys (firstDedup (out.rows.map (rowKey out.headers)))).Nodup :=
      nodup_sortKeys _ (nodup_firstDedup _)
    refine (List.Pairwise.imp ?_ hnd)
    intro k1 k2 hne r hr1 hr2
    have h1 := of_decide_eq_true (List.mem_filter.mp hr1).2
    have h2 := of_decide_eq_true (List.mem_filter.mp hr2).2
    exact hne (h1 ▸ h2)

/-- C3 witness: the partition property instantiated on a concrete table. -/
theorem c3_groups_partition_witness :
    List.Perm ((grouped exOutput).map (fun g => g.2.rows)).flatten exOutput.rows :=
  (c3_groups_partition exInput exOutput (by decide)).1

/-- C4: `transform` fails naming exactly the absent required columns whenever
one of the three is absent, and the check depends only on the headers — no
filtering happens on any rows when a required column is missing. -/
theorem c4_missing_required_columns (t : Table) (h : missingCols t.headers ≠ []) :
    transform t = .error (missingCols t.headers)
    ∧ (∀ c, c ∈ missingCols t.headers ↔ (c ∈ REQUIRED_COLS ∧ c ∉ t.headers))
    ∧ (∀ rows2 : List Row,
        transform { headers := t.headers, rows := rows2 } = .error (missingCols t.headers)) := by
  refine ⟨?_, ?_, ?_⟩
  · rw [transform, if_neg h]
  · intro c
    simp [missingCols, List.mem_filter]
  · intro rows2
    rw [transform]
    exact if_neg h

/-- C4 witness: a table lacking two required columns errors on exactly them. -/
theorem c4_missing_required_columns_witness :
    transform exMissingInput = .error (missingCols exMissingInput.headers)
    ∧ missingCols exMissingInput.headers = ["Sample Type", "Concentration"] :=
  ⟨(c4_missing_required_columns exMissingInput (by decide)).1, by decide⟩

/-- C5: `slugify` is the composite stringify-trim-replace-collapse-strip
pipeline with the `"sample"` fallback, and satisfies the three examples of
the contract. -/
theorem c5_slugify_contract :
    (∀ s : String, slugify s =
      orSample (stripUnderscores (collapseU (subRuns (replaceSpaces (pyStrip s))))))
    ∧ slugify "" = "sample"
    ∧ slugify "A B/C" = "A_B_C"
    ∧ slugify "  x__y  " = "x_y" :=
  ⟨fun _ => rfl, by decide, by decide, by decide⟩

/-- C6: an empty filtered table short-circuits to the `EmptyResultSet`
warning, an outcome distinct from every hard error and carrying no combined
table, no per-group tables and no archive. -/
theorem c6_empty_result_short_circuit (rawLen maxMB : Nat) (t out : Table)
    (hsize : ¬ maxMB * BYTES_PER_MB < rawLen)
    (h : transform t = .ok out) (hempty : out.rows = []) :
    process rawLen maxMB (.parsed t) = .emptyResultSet
    ∧ (∀ c g, Outcome.emptyResultSet ≠ Outcome.success c g)
    ∧ Outcome.emptyResultSet ≠ Outcome.sizeLimitExceeded
    ∧ Outcome.emptyResultSet ≠ Outcome.parseError
    ∧ (∀ ms, Outcome.emptyResultSet ≠ Outcome.missingRequiredColumns ms) := by
  refine ⟨?_, fun c g hc => Outcome.noConfusion hc, fun hc => Outcome.noConfusion hc,
    fun hc => Outcome.noConfusion hc, fun ms hc => Outcome.noConfusion hc⟩
  rw [process.eq_def, if_neg hsize]
  show afterParse t = Outcome.emptyResultSet
  rw [afterParse.eq_def, h]
  show (if out.rows = [] then Outcome.emptyResultSet else _) = Outcome.emptyResultSet
  rw [if_pos hempty]

/-- C6 witness: a concrete run whose filtered table is empty. -/
theorem c6_empty_result_short_circuit_witness :
    process 10 1 (.parsed exEmptyInput) = .emptyResultSet :=
  (c6_empty_result_short_circuit 10 1 exEmptyInput exEmptyOutput (by decide) (by decide)
    (by decide)).1

/-- C7: `transform` removes exactly the present metadata columns of the
configured list, keeps every other column with its name, keeps the retained
cells of every surviving row unchanged, and never errors over the drop list
when the required columns are present. -/
theorem c7_drop_metadata_columns (t out : Table) (h : transform t = .ok out)
    (hwf : ∀ r ∈ t.rows, r.length = t.headers.length) :
    out.headers = t.headers.filter (fun c => !decide (c ∈ DROP_COLUMNS))
    ∧ (∀ r2 ∈ out.rows, ∃ r, r ∈ t.rows ∧
        out.headers.zip r2 = (t.headers.zip r).filter (fun p => !decide (p.1 ∈ DROP_COLUMNS)))
    ∧ (∀ t2 : Table, missingCols t2.headers = [] →
        transform t2 = .ok (Table.mk (keptHeaders t2.headers)
          (((t2.rows.filter (maskSampleType t2.headers)).filter
              (maskConc t2.headers)).map (dropRow t2.headers)))) := by
  obtain ⟨hm, hout⟩ := transform_eq_ok h
  subst hout
  refine ⟨rfl, ?_, ?_⟩
  · intro r2 hr2
    obtain ⟨r, hrmem, rfl⟩ := List.mem_map.mp hr2
    have hr : r ∈ t.rows := (List.mem_filter.mp (List.mem_filter.mp hrmem).1).1
    exact ⟨r, hr, zip_dropRow t.headers r (hwf r hr)⟩
  · intro t2 hm2
    rw [transform, if_pos hm2]

/-- C7 witness: the drop behaviour instantiated on a concrete table. -/
theorem c7_drop_metadata_columns_witness :
    exOutput.headers = exInput.headers.filter (fun c => !decide (c ∈ DROP_COLUMNS)) :=
  (c7_drop_metadata_columns exInput exOutput (by decide) (by decide)).1

/-- C8: a byte length over the threshold aborts with `SizeLimitExceeded` no
matter what the parse would have produced; at or under the threshold the
parsed table flows into the rest of the pipeline. -/
theorem c8_size_limit (rawLen maxMB : Nat) :
    (maxMB * BYTES_PER_MB < rawLen →
      ∀ p : ParseOutcome, process rawLen maxMB p = .sizeLimitExceeded)
    ∧ (¬ maxMB * BYTES_PER_MB < rawLen →
      ∀ t : Table, process rawLen maxMB (.parsed t) = afterParse t) := by
  constructor
  · intro hgt p
    rw [process.eq_def, if_pos hgt]
  · intro hle t
    rw [process.eq_def, if_neg hle]

/-- C8 witness: one byte over a 2 MB limit aborts before parsing; a small
payload under a 1 MB limit proceeds to the parsed table. -/
theorem c8_size_limit_witness :
    process 2097153 2 ParseOutcome.failed = Outcome.sizeLimitExceeded
    ∧ process 10 1 (ParseOutcome.parsed exEmptyInput) = afterParse exEmptyInput :=
  ⟨(c8_size_limit 2097153 2).1 (by decide) ParseOutcome.failed,
   (c8_size_limit 10 1).2 (by decide) exEmptyInput⟩

/-- C9: a row whose Sample Type cell is the missing marker is never retained:
the marker stringifies to `"nan"`, the type mask is false on it, and the row
is in neither intermediate filtered row list. -/
theorem c9_missing_sample_type_dropped (t out : Table) (h : transform t = .ok out)
    (row : Row) (hmiss : getCell t.headers row SAMPLE_TYPE_COL = Cell.missing) :
    pyStr Cell.missing = "nan"
    ∧ maskSampleType t.headers row = false
    ∧ row ∉ t.rows.filter (maskSampleType t.headers)
    ∧ row ∉ (t.rows.filter (maskSampleType t.headers)).filter (maskConc t.headers) := by
  have hmask : maskSampleType t.headers row = false := by
    simp only [maskSampleType, hmiss]
    decide
  refine ⟨rfl, hmask, fun hmem => ?_, fun hmem => ?_⟩
  · have := (List.mem_filter.mp hmem).2
    rw [hmask] at this
    cases this
  · have := (List.mem_filter.mp (List.mem_filter.mp hmem).1).2
    rw [hmask] at this
    cases this

/-- C9 witness: the concrete row with a missing Sample Type is dropped. -/
theorem c9_missing_sample_type_dropped_witness :
    maskSampleType exInput.headers [Cell.missing, Cell.val "4", Cell.val "c"] = false :=
  (c9_missing_sample_type_dropped exInput exOutput (by decide)
    [Cell.missing, Cell.val "4", Cell.val "c"] (by decide)).2.1

/-- C10: filtering is stable and non-mutating: the surviving rows are a
subsequence of the input rows (order preserved), and each output row is its
input row with exactly the dropped columns' cells removed, the retained
cells unchanged under their unchanged headers. -/
theorem c10_transform_stable (t out : Table) (h : transform t = .ok out)
    (hwf : ∀ r ∈ t.rows, r.length = t.headers.length) :
    ∃ kept : List Row, kept.Sublist t.rows
      ∧ out.rows = kept.map (dropRow t.headers)
      ∧ ∀ r ∈ kept, out.headers.zip (dropRow t.headers r)
          = (t.headers.zip r).filter (fun p => !decide (p.1 ∈ DROP_COLUMNS)) := by
  obtain ⟨hm, hout⟩ := transform_eq_ok h
  subst hout
  refine ⟨(t.rows.filter (maskSampleType t.headers)).filter (maskConc t.headers),
    (List.filter_sublist _).trans (List.filter_sublist _), rfl, ?_⟩
  intro r hr
  have hrmem : r ∈ t.rows := (List.mem_filter.mp (List.mem_filter.mp hr).1).1
  exact zip_dropRow t.headers r (hwf r hrmem)

/-- C10 witness: the stability property instantiated on a concrete table. -/
theorem c10_transform_stable_witness :
    ∃ kept : List Row, kept.Sublist exInput.rows
      ∧ exOutput.rows = kept.map (dropRow exInput.headers)
      ∧ ∀ r ∈ kept, exOutput.headers.zip (dropRow exInput.headers r)
          = (exInput.headers.zip r).filter (fun p => !decide (p.1 ∈ DROP_COLUMNS)) :=
  c10_transform_stable exInput exOutput (by decide) (by decide)

/-- C1 counterexample: on a concrete filtered table whose sample names first
appear in the order `"b"`, `"a"`, the code emits the groups in sorted key
order `"a"`, `"b"` — not in first-appearance order as the claim states. -/
theorem c1_counterexample :
    transform exInput = .ok exOutput
    ∧ firstDedup (exOutput.rows.map (rowKey exOutput.headers))
        = [Cell.val "b", Cell.val "a"]
    ∧ (grouped exOutput).map Prod.fst = [Cell.val "a", Cell.val "b"]
    ∧ (grouped exOutput).map Prod.fst
        ≠ firstDedup (exOutput.rows.map (rowKey exOutput.headers)) := by
  decide

/-- C1 (amended): the groups of the split step are ordered by ascending key
(codepoint-lexicographic on the string value, the missing-marker group last),
their keys are distinct, and the keys are exactly the sample-name values
occurring among the filtered rows — including the missing marker, which gets
its own group. -/
theorem c1_grouped_sorted_order (t out : Table) (h : transform t = .ok out) :
    List.Sorted cellLe ((grouped out).map Prod.fst)
    ∧ ((grouped out).map Prod.fst).Nodup
    ∧ (∀ k, k ∈ (grouped out).map Prod.fst ↔ k ∈ out.rows.map (rowKey out.headers)) := by
  rw [grouped_keys_eq]
  refine ⟨sortKeys_sorted _, nodup_sortKeys _ (nodup_firstDedup _), fun k => ?_⟩
  rw [mem_sortKeys, mem_firstDedup]

/-- C1 witness: the sorted-order property instantiated on a concrete table. -/
theorem c1_grouped_sorted_order_witness :
    List.Sorted cellLe ((grouped exOutput).map Prod.fst) :=
  (c1_grouped_sorted_order exInput exOutput (by decide)).1

end SampleSplitter
